import Mathlib

/-!
Shallow embedding of the transaction-pipeline core of `marketplace-tx-js`:
the nonce manager (`src/support/nonce/*`), the transaction builder
(`src/support/tx.js`), the sender (`src/support/sender.js`), the error
classifier (`src/support/errors.js`) and the locking in-memory key-value
store (`src/support/store/inmemory.js`).

Conventions of the embedding:
* JavaScript objects of the shape `nonce -> true` (the per-account set of
  acquired nonces) are modelled as `Finset Nat`.  Their keys are canonical
  decimal numerals, so the coercing JS comparisons (`nonce >= txCount` on a
  string key, `nextNonce in knownTransactions`) agree with the `Nat` view.
* Fallible asynchronous code is modelled with `Except JsError`.
* Node answers (transaction count, txpool content, ABI encoding) are passed
  in as an explicit environment record instead of live web3 calls.
-/

namespace MarketplaceTx

/-- The per-account set of acquired nonces (a JS object `nonce -> true`). -/
abbrev NonceSet := Finset Nat

/-- Per-address view of the node mempool, as produced by `inspectTxPool`:
the nonce keys of the `pending` and `queued` sub-pools. -/
structure TxPoolView where
  pending : NonceSet
  queued : NonceSet
deriving DecidableEq

/-- Result record of `calculateNonce` (`src/support/nonce/util.js`). -/
structure NonceCalc where
  nextNonce : Nat
  acquiredNonces : NonceSet
deriving DecidableEq

/-- The gap-searching `while` loop of `calculateNonce`:
starting at `next`, advance past members of `known`; `fuel` is the number
of loop iterations still allowed by the bound `nextNonce <= maxKnownNonce`. -/
def findVacant (known : NonceSet) : Nat → Nat → Nat
  | next, 0 => next
  | next, fuel + 1 => if next ∈ known then findVacant known (next + 1) fuel else next

/-- `calculateNonce(debugLog, storedNonces, txCount, {pending, queued})`
from `src/support/nonce/util.js` (the logging callback carries no state and
is omitted).  The same algorithm is inlined in
`getNonceForAccount` of `src/support/nonce/setup.js` and
`src/support/nonce/manager.js`. -/
def calculateNonce (storedNonces : NonceSet) (txCount : Nat) (pool : TxPoolView) :
    NonceCalc :=
  -- `_.pickBy(storedNonces, (value, nonce) => nonce >= txCount)`
  let acquiredNonces := storedNonces.filter (fun nonce => txCount ≤ nonce)
  -- `_.assign({}, acquiredNonces, pending, queued)` viewed as a key set
  let knownTransactions := acquiredNonces ∪ pool.pending ∪ pool.queued
  -- `knownNonces.reduce((a, b) => Math.max(a, b), txCount)`
  let maxKnownNonce := knownTransactions.fold max txCount id
  -- `while (nextNonce <= maxKnownNonce) { if (!(nextNonce in known)) break; nextNonce += 1 }`
  let nextNonce := findVacant knownTransactions txCount (maxKnownNonce + 1 - txCount)
  -- `acquiredNonces[nextNonce] = true`
  { nextNonce := nextNonce, acquiredNonces := insert nextNonce acquiredNonces }

/-- One hexadecimal digit as produced by JavaScript `Number.prototype.toString(16)`
(lowercase letters). -/
def hexDigitChar (n : Nat) : Char :=
  if n < 10 then Char.ofNat (48 + n) else Char.ofNat (87 + n)

/-- Fuelled form of the digit recursion behind `n.toString(16)`; the fuel is
only a structural-termination device and is irrelevant once at least `n`. -/
def hexRepAux : Nat → Nat → List Char
  | _, 0 => []
  | 0, _ + 1 => []
  | fuel + 1, n + 1 => hexRepAux fuel ((n + 1) / 16) ++ [hexDigitChar ((n + 1) % 16)]

/-- Hex digit list of `n`, most significant first; empty for `0`
(the recursion behind `n.toString(16)`). -/
def hexRep (n : Nat) : List Char := hexRepAux n n

/-- `'0x' + nonce.toString(16)`: the nonce representation placed on a raw
transaction by `withOptionalNonce` (`src/support/tx.js`). -/
def hex0xString (n : Nat) : String :=
  if n = 0 then ⟨['0', 'x', '0']⟩ else ⟨'0' :: 'x' :: hexRep n⟩

/-- Numeric value of a hex digit character, as recognised by JavaScript
`Number` on a `0x`-prefixed string; `none` on a non-digit. -/
def hexCharVal (c : Char) : Option Nat :=
  if 48 ≤ c.toNat ∧ c.toNat ≤ 57 then some (c.toNat - 48)
  else if 97 ≤ c.toNat ∧ c.toNat ≤ 102 then some (c.toNat - 87)
  else if 65 ≤ c.toNat ∧ c.toNat ≤ 70 then some (c.toNat - 55)
  else none

/-- Accumulating hex parser; `none` models `NaN`. -/
def parseHexAux (acc : Nat) : List Char → Option Nat
  | [] => some acc
  | c :: cs =>
    match hexCharVal c with
    | some v => parseHexAux (16 * acc + v) cs
    | none => none

/-- Decimal digit value. -/
def decCharVal (c : Char) : Option Nat :=
  if 48 ≤ c.toNat ∧ c.toNat ≤ 57 then some (c.toNat - 48) else none

/-- Accumulating decimal parser; `none` models `NaN`. -/
def parseDecAux (acc : Nat) : List Char → Option Nat
  | [] => some acc
  | c :: cs =>
    match decCharVal c with
    | some v => parseDecAux (10 * acc + v) cs
    | none => none

/-- A nonce argument as it reaches `releaseAccountNonce`: either a number or
the `0x`-prefixed string carried on a built raw transaction. -/
inductive NonceValue where
  | num (n : Nat)
  | str (s : String)
deriving DecidableEq

/-- JavaScript `Number(x)` restricted to the nonce arguments that occur in the
pipeline: numbers pass through, `0x`-prefixed strings parse as hex, decimal
strings parse as decimal, anything else is `NaN` (`none`). -/
def jsNumber : NonceValue → Option Nat
  | .num n => some n
  | .str s =>
    match s.data with
    | '0' :: 'x' :: c :: cs => parseHexAux 0 (c :: cs)
    | c :: cs => parseDecAux 0 (c :: cs)
    | [] => none

/-- `releaseAccountNonce(address, nonce)` from `src/support/nonce/setup.js`,
acting on the stored state of one address (`none` = no entry in the store):
`if (_.isObject(nonces)) { delete nonces[Number(nonce)]; put(...) }`. -/
def releaseAccountNonce (stored : Option NonceSet) (nonce : NonceValue) :
    Option NonceSet :=
  match stored with
  | none => none
  | some s =>
    match jsNumber nonce with
    | some k => some (s.erase k)
    -- `delete nonces[NaN]` touches only the key "NaN", never a nonce key
    | none => some s

/-- Node answers consumed by one account's pipeline run: the confirmed
transaction count, the mempool view, the resolved contract address and the
ABI encoding of a method call (`none` models `getData` throwing). -/
structure NodeEnv where
  txCount : Nat
  pool : TxPoolView
  contractAddress : String
  encodeCall : String → List String → Option String

/-- `getNonceForAccount(address)` from `src/support/nonce/setup.js`, acting on
the stored state of one address: read the stored nonces (`null` behaves as the
empty object under `_.pickBy`), run the allocation algorithm of
`calculateNonce`, persist the updated set, return the nonce. -/
def getNonceForAccount (env : NodeEnv) (stored : Option NonceSet) :
    Nat × Option NonceSet :=
  let r := calculateNonce (stored.getD ∅) env.txCount env.pool
  (r.nextNonce, some r.acquiredNonces)

/-- Nonces handed out by `n` back-to-back `getNonceForAccount` calls against
a fixed node state, threading the stored set. -/
def acquireSeq (env : NodeEnv) (stored : Option NonceSet) : Nat → List Nat × Option NonceSet
  | 0 => ([], stored)
  | k + 1 =>
    let first := getNonceForAccount env stored
    let rest := acquireSeq env first.2 k
    (first.1 :: rest.1, rest.2)

/-- One entry of a transaction-chain request:
`{ contract, method, args }` as passed to `sendChain`/`createTxChain`. -/
structure TxParams where
  contract : String
  method : String
  args : List String
deriving DecidableEq

/-- The error values flowing through the pipeline
(`src/support/errors.js`).  `raw` stands for any non-`CvcError` JavaScript
error, split into its `name` and `message` properties (its string form is
`name + ": " + message`); the remaining constructors are the `CvcError`
subclasses. -/
inductive JsError where
  | raw (name : String) (message : String)
  | invalidNonce (cause : JsError)
  | failedTxChain (transactions : List TxParams) (cause : JsError)
  | notDeployed (address : String)
  | noNetworkInContract (contractName : String) (cause : JsError)
  | signerMismatch (signer : String) (sender : String)
  | notFound (message : String)
deriving DecidableEq

/-- `error instanceof CvcError`. -/
def isCvcError : JsError → Bool
  | .raw _ _ => false
  | _ => true

/-- `error instanceof InvalidNonceError`. -/
def isInvalidNonceError : JsError → Bool
  | .invalidNonce _ => true
  | _ => false

/-- The `name` property of the error object. -/
def errName : JsError → String
  | .raw name _ => name
  | .invalidNonce _ => "InvalidNonceError"
  | .failedTxChain _ _ => "FailedTxChainError"
  | .notDeployed _ => "NotDeployedError"
  | .noNetworkInContract _ _ => "NoNetworkInContractError"
  | .signerMismatch _ _ => "SignerSenderAddressMismatchError"
  | .notFound _ => "NotFoundError"

/-- The `message` property of the error object, as set by the constructors in
`src/support/errors.js`. -/
def errMessage : JsError → String
  | .raw _ message => message
  | .invalidNonce _ => "Invalid nonce value"
  | .failedTxChain transactions _ =>
    "Failed to send " ++ toString transactions.length ++ " chained transactions"
  | .notDeployed address => "No code deployed at address " ++ address ++ "."
  | .noNetworkInContract contractName _ =>
    "Could not detect " ++ "'" ++ contractName ++ "'" ++ " in network."
  | .signerMismatch signer sender =>
    "Expected from sender address " ++ sender ++
      " does not match actual signing " ++ signer ++ " address."
  | .notFound message => message

/-- `String(error)`, the value the classification regex is tested against. -/
def errorString (e : JsError) : String :=
  errName e ++ ": " ++ errMessage e

/-- A character of a regex literal pattern: an exact character or `\s`. -/
inductive Pat where
  | lit (c : Char)
  | ws
deriving DecidableEq

/-- ASCII whitespace recognised by the regex class `\s`. -/
def wsChars : List Char := [' ', '\t', '\n', '\r', '\x0b', '\x0c']

/-- Literal pattern from a string. -/
def lits (s : String) : List Pat := s.data.map .lit

/-- Match a pattern at the beginning of the text. -/
def patMatchAt : List Pat → List Char → Bool
  | [], _ => true
  | _ :: _, [] => false
  | .lit c :: ps, a :: as => a = c && patMatchAt ps as
  | .ws :: ps, a :: as => wsChars.contains a && patMatchAt ps as

/-- Match a pattern at any position of the text (regex search). -/
def patSearch (p : List Pat) : List Char → Bool
  | [] => patMatchAt p []
  | c :: cs => patMatchAt p (c :: cs) || patSearch p cs

/-- The alternation `/nonce|replacement\stransaction\sunderpriced|known\stransaction/`
applied to `String(error)` — the test in `mapError`
(`src/support/errors.js`).  Note: the regex carries no `i` flag, so the match
is case-sensitive. -/
def invalidNonceTest (s : String) : Bool :=
  patSearch (lits "nonce") s.data ||
  patSearch (lits "replacement" ++ [Pat.ws] ++ lits "transaction" ++ [Pat.ws] ++
    lits "underpriced") s.data ||
  patSearch (lits "known" ++ [Pat.ws] ++ lits "transaction") s.data

/-- `mapError(error)` from `src/support/errors.js`: already-classified errors
pass through, errors whose string form matches the nonce regex become
`InvalidNonceError(cause)`, everything else is propagated unmodified. -/
def mapError (error : JsError) : JsError :=
  if isCvcError error then error
  else if invalidNonceTest (errorString error) then .invalidNonce error
  else error

/-- Case-insensitive character match, lowering ASCII letters. -/
def charLower (c : Char) : Char :=
  if 65 ≤ c.toNat ∧ c.toNat ≤ 90 then Char.ofNat (c.toNat + 32) else c

/-- Case-insensitive variant of `patMatchAt`. -/
def patMatchAtCI : List Pat → List Char → Bool
  | [], _ => true
  | _ :: _, [] => false
  | .lit c :: ps, a :: as => charLower a = charLower c && patMatchAtCI ps as
  | .ws :: ps, a :: as => wsChars.contains a && patMatchAtCI ps as

/-- Case-insensitive variant of `patSearch`. -/
def patSearchCI (p : List Pat) : List Char → Bool
  | [] => patMatchAtCI p []
  | c :: cs => patMatchAtCI p (c :: cs) || patSearchCI p cs

/-- Modelled from the spec: the classification test as the specification
words it — "the error's textual message matches any of the case-insensitive
patterns `nonce`, `replacement transaction underpriced`, or
`known transaction`".  The code's regex (`invalidNonceTest`) is
case-sensitive; this definition is the spec's case-insensitive reading, kept
for comparison. -/
def invalidNonceTestCI (s : String) : Bool :=
  patSearchCI (lits "nonce") s.data ||
  patSearchCI (lits "replacement" ++ [Pat.ws] ++ lits "transaction" ++ [Pat.ws] ++
    lits "underpriced") s.data ||
  patSearchCI (lits "known" ++ [Pat.ws] ++ lits "transaction") s.data

/-- State of the locking in-memory key-value store
(`src/support/store/inmemory.js`): the `store` object and, per key, whether a
lock (an armed watchdog timer handle in `this.locked`) is present. -/
structure KVState (V : Type) where
  store : String → Option V
  locked : String → Bool

/-- A store with no entries and no locks held. -/
def emptyKV (V : Type) : KVState V :=
  { store := fun _ => none, locked := fun _ => false }

/-- `InMemory.get(key)`: poll while `this.locked[key]` up to
`LOCK_ACQUIRE_TIMEOUT`; if the key stays locked, throw the lock-acquisition
error; otherwise arm the watchdog (`this.locked[key] = setTimeout(...)`) and
return `this.store[key] || null`.  The poll loop is embedded against a fixed
lock state: a key locked for the whole wait yields the timeout error, an
unlocked key is read immediately — and locked by the read. -/
def storeGet {V : Type} (st : KVState V) (key : String) :
    Except JsError (Option V × KVState V) :=
  if st.locked key then
    .error (.raw "Error"
      ("Cannot obtain lock for " ++ key ++ " after 45000ms of 450 attempts"))
  else
    .ok (st.store key,
      { st with locked := fun k => if k = key then true else st.locked k })

/-- `InMemory.put(key, value)`: write the value, then `release(key)`
(clear the watchdog and drop the lock). -/
def storePut {V : Type} (st : KVState V) (key : String) (value : V) : KVState V :=
  { store := fun k => if k = key then some value else st.store k,
    locked := fun k => if k = key then false else st.locked k }

/-- `InMemory.release(key)`: clear the watchdog and drop the lock, without
writing. -/
def storeRelease {V : Type} (st : KVState V) (key : String) : KVState V :=
  { st with locked := fun k => if k = key then false else st.locked k }

/-- A raw transaction as built by `createTx`/`createPlatformCoinTransferTx`
(`src/support/tx.js`).  The JS fields `from`/`to` are rendered as
`fromAddress`/`toAddress`; all numeric fields are carried as the `0x`-hex
strings the builder produces. -/
structure RawTransaction where
  nonce : Option String := none
  fromAddress : String
  toAddress : String
  value : String
  data : Option String := none
  gas : String
  gasPrice : String
  chainId : String
deriving DecidableEq

/-- Per-call transaction overrides (`TransactionOptions`). -/
structure TxOptions where
  nonce : Option Nat := none
  gas : Option Nat := none
  gasPrice : Option Nat := none
  chainId : Option Nat := none
deriving DecidableEq

/-- JavaScript truthiness of the optional numeric `txOptions.nonce`:
`undefined` and `0` are falsy. -/
def jsTruthyNat : Option Nat → Bool
  | none => false
  | some k => k != 0

/-- `withOptionalNonce(nonce, transaction)` from `src/support/tx.js`. -/
def withOptionalNonce (nonce : Option Nat) (transaction : RawTransaction) :
    RawTransaction :=
  match nonce with
  | none => transaction
  | some n => { transaction with nonce := some (hex0xString n) }

/-- One interaction with the nonce manager, recorded so that bypass claims
("neither acquire nor release happens") can be stated. -/
inductive ManagerOp where
  | acquire (n : Nat)
  | release (n : Nat)
deriving DecidableEq

deriving instance DecidableEq for Except

/-- Outcome of a builder call: the settled promise, the per-address stored
nonce state after the call, and the trace of nonce-manager interactions. -/
structure CreateTxResult where
  result : Except JsError RawTransaction
  stored : Option NonceSet
  ops : List ManagerOp
deriving DecidableEq

/-- `tx.createTx(...)` from `src/support/tx.js`, for a resolved contract
instance at `env.contractAddress` and with the fallible ABI encoding
`env.encodeCall`.  Control flow of the source:
* `if (updatedTxOptions.nonce)` — a truthy client nonce is used as is, and the
  release handle stays the initial `Promise.resolve()`; should the body then
  throw, `await nonceReleasePromise(nonce)` itself throws a `TypeError`
  (a resolved promise is not callable), which is what propagates;
* `else if (assignedNonce)` — the nonce manager assigns a nonce, and on a
  body throw that nonce is released and `mapError(error)` propagates;
* otherwise no nonce is attached (and a body throw again becomes the
  `TypeError` from calling the resolved promise). -/

def createTx (env : NodeEnv) (stored : Option NonceSet) (fromAddress : String)
    (contractName method : String) (args : List String) (assignedNonce : Bool)
    (txOptions : TxOptions) : CreateTxResult :=
  let gas := txOptions.gas.getD 300000
  let gasPrice := txOptions.gasPrice.getD 1000000000
  let chainId := txOptions.chainId.getD 0
  let base : Option Nat → String → RawTransaction := fun nonce data =>
    withOptionalNonce nonce
      { fromAddress := fromAddress
        toAddress := env.contractAddress
        value := "0x0"
        data := some data
        gas := hex0xString gas
        gasPrice := hex0xString gasPrice
        chainId := hex0xString chainId }
  if jsTruthyNat txOptions.nonce then
    match env.encodeCall method args with
    | some data =>
      { result := .ok (base txOptions.nonce data), stored := stored, ops := [] }
    | none =>
      { result := .error (.raw "TypeError" "nonceReleasePromise is not a function")
        stored := stored, ops := [] }
  else if assignedNonce then
    let acquired := getNonceForAccount env stored
    match env.encodeCall method args with
    | some data =>
      { result := .ok (base (some acquired.1) data), stored := acquired.2,
        ops := [.acquire acquired.1] }
    | none =>
      { result := .error (mapError (.raw "Error"
          "Invalid number of arguments to Solidity function"))
        stored := releaseAccountNonce acquired.2 (.num acquired.1)
        ops := [.acquire acquired.1, .release acquired.1] }
  else
    match env.encodeCall method args with
    | some data =>
      { result := .ok (base none data), stored := stored, ops := [] }
    | none =>
      { result := .error (.raw "TypeError" "nonceReleasePromise is not a function")
        stored := stored, ops := [] }

/-- `tx.createPlatformCoinTransferTx(...)` from `src/support/tx.js`:
same nonce dispatch as `createTx`; no contract call, `gas` fixed to
`'0x5208'` (21000), nothing in the builder body can throw. -/
def createPlatformCoinTransferTx (env : NodeEnv) (stored : Option NonceSet)
    (fromAddress toAddress value : String) (assignedNonce : Bool)
    (txOptions : TxOptions) : CreateTxResult :=
  let gasPrice := txOptions.gasPrice.getD 1000000000
  let chainId := txOptions.chainId.getD 0
  let base : Option Nat → RawTransaction := fun nonce =>
    withOptionalNonce nonce
      { fromAddress := fromAddress
        toAddress := toAddress
        value := value
        gas := "0x5208"
        gasPrice := hex0xString gasPrice
        chainId := hex0xString chainId }
  if jsTruthyNat txOptions.nonce then
    { result := .ok (base txOptions.nonce), stored := stored, ops := [] }
  else if assignedNonce then
    let acquired := getNonceForAccount env stored
    { result := .ok (base (some acquired.1)), stored := acquired.2,
      ops := [.acquire acquired.1] }
  else
    { result := .ok (base none), stored := stored, ops := [] }

/-- `tx.createTxChain(...)` from `src/support/tx.js`: reduce the entries into
sequential `createTx` calls; the first rejection aborts the chain. -/
def createTxChain (env : NodeEnv) (fromAddress : String) (assignedNonce : Bool)
    (txOptions : TxOptions) :
    List TxParams → Option NonceSet →
      Except JsError (List RawTransaction) × Option NonceSet
  | [], stored => (.ok [], stored)
  | t :: ts, stored =>
    let r := createTx env stored fromAddress t.contract t.method t.args
      assignedNonce txOptions
    match r.result with
    | .error e => (.error e, r.stored)
    | .ok rawTx =>
      match createTxChain env fromAddress assignedNonce txOptions ts r.stored with
      | (.ok rest, st2) => (.ok (rawTx :: rest), st2)
      | (.error e, st2) => (.error e, st2)

/-- A mined-transaction placement receipt. -/
structure Receipt where
  transactionHash : String
deriving DecidableEq

/-- The single-send `handleSendError` of `src/support/sender.js`
(`if (nonce && !(error instanceof InvalidNonceError)) release(...); throw error`),
acting on the stored state of the sending address.  `nonce` is the raw
transaction's optional hex-string nonce; a present hex string is truthy. -/
def handleSendError (stored : Option NonceSet) (nonce : Option String)
    (error : JsError) : Option NonceSet × JsError :=
  match nonce with
  | some s =>
    if s != "" && !isInvalidNonceError error then
      (releaseAccountNonce stored (.str s), error)
    else
      (stored, error)
  | none => (stored, error)

/-- `sender.send(parameters)` from `src/support/sender.js`: build the
transaction (`assignedNonce = !!signTx`), then submit; a submission failure is
routed through `handleSendError` with the built transaction's nonce.  The
outcome of the sign-and-submit step (steps 2–3 of the pipeline) is passed in
as `sendOutcome`. -/
def send (env : NodeEnv) (stored : Option NonceSet) (fromAddress : String)
    (contractName method : String) (args : List String) (signTx : Bool)
    (txOptions : TxOptions) (sendOutcome : Except JsError Receipt) :
    Except JsError Receipt × Option NonceSet :=
  let r := createTx env stored fromAddress contractName method args signTx txOptions
  match r.result with
  | .error e => (.error e, r.stored)
  | .ok transaction =>
    match sendOutcome with
    | .ok receipt => (.ok receipt, r.stored)
    | .error e =>
      let handled := handleSendError r.stored transaction.nonce e
      (.error handled.2, handled.1)

/-- Release the nonce carried on one raw transaction
(`nonceManager.releaseAccountNonce(fromAddress, rawTx.nonce)`).
An absent nonce makes `Number(undefined) = NaN`, and `delete nonces[NaN]`
leaves every nonce key intact. -/
def releaseRawTxNonce (stored : Option NonceSet) (rawTx : RawTransaction) :
    Option NonceSet :=
  match rawTx.nonce with
  | some s => releaseAccountNonce stored (.str s)
  | none =>
    match stored with
    | none => none
    | some s => some s

/-- The `unprocessedRawTransactions.forEach((rawTx, idx) => ...)` release pass
of the chain `handleSendError` (`src/support/sender.js`): release the nonce
when `idx > 0 || !(error instanceof InvalidNonceError)`. -/
def releaseUnprocessed (error : JsError) :
    Nat → Option NonceSet → List RawTransaction → Option NonceSet
  | _, stored, [] => stored
  | idx, stored, rawTx :: rest =>
    let stored2 :=
      if 0 < idx || !isInvalidNonceError error then releaseRawTxNonce stored rawTx
      else stored
    releaseUnprocessed error (idx + 1) stored2 rest

/-- The chain `handleSendError` of `TransactionChainToSend`
(`src/support/sender.js`): run the release pass over the unsent raw
transactions, then throw `FailedTxChainError(unprocessedTransactions, error)`. -/
def chainHandleSendError (stored : Option NonceSet)
    (unprocessedRawTransactions : List RawTransaction)
    (unprocessedTransactions : List TxParams) (error : JsError) :
    Option NonceSet × JsError :=
  (releaseUnprocessed error 0 stored unprocessedRawTransactions,
   .failedTxChain unprocessedTransactions error)

/-- `String.prototype.includes(pat)`: exact (case-sensitive) substring test. -/
def strIncludes (s pat : String) : Bool :=
  patSearch (lits pat) s.data

/-- The raw `txpool.inspect` node reply: `pending` and `queued` maps keyed by
address, with the per-address nonce-keyed summaries abbreviated to their
nonce key sets. -/
structure TxPoolReply where
  pending : String → Option NonceSet
  queued : String → Option NonceSet

/-- `inspectTxPool(address)` from `src/support/nonce/setup.js` (identical in
`src/support/nonce/manager.js`), over the node's answer: an error whose
message contains `Method txpool_inspect not supported.` resolves to empty
pools; any other error rejects with `mapError(error)`; a successful reply is
indexed by the address, missing entries defaulting to `{}`. -/
def inspectTxPool (address : String) (reply : Except JsError TxPoolReply) :
    Except JsError TxPoolView :=
  match reply with
  | .error e =>
    if strIncludes (errMessage e) "Method txpool_inspect not supported." then
      .ok ⟨∅, ∅⟩
    else
      .error (mapError e)
  | .ok result =>
    .ok ⟨(result.pending address).getD ∅, (result.queued address).getD ∅⟩

/-- A concrete node environment used by witnesses and counterexamples:
a fresh account (`txCount = 0`), an empty mempool, and an ABI encoder that
always succeeds. -/
def envW : NodeEnv :=
  { txCount := 0
    pool := ⟨∅, ∅⟩
    contractAddress := "0xC"
    encodeCall := fun _ _ => some "0xdata" }

theorem findVacant_ge (known : NonceSet) (next fuel : Nat) :
    next ≤ findVacant known next fuel := by
  induction fuel generalizing next with
  | zero => simp [findVacant]
  | succ fuel ih =>
    simp only [findVacant]
    split
    · exact le_trans (Nat.le_succ next) (ih (next + 1))
    · exact le_refl next

theorem findVacant_mem_of_lt (known : NonceSet) (next fuel : Nat) :
    ∀ m, next ≤ m → m < findVacant known next fuel → m ∈ known := by
  induction fuel generalizing next with
  | zero =>
    intro m hm hlt
    simp [findVacant] at hlt
    omega
  | succ fuel ih =>
    intro m hm hlt
    simp only [findVacant] at hlt
    by_cases hmem : next ∈ known
    · simp only [hmem, if_true] at hlt
      rcases Nat.eq_or_lt_of_le hm with h | h
      · exact h ▸ hmem
      · exact ih (next + 1) m h hlt
    · simp only [hmem, if_false] at hlt
      omega

theorem findVacant_le (known : NonceSet) (next fuel : Nat) :
    findVacant known next fuel ≤ next + fuel := by
  induction fuel generalizing next with
  | zero => simp [findVacant]
  | succ fuel ih =>
    simp only [findVacant]
    split
    · have := ih (next + 1)
      omega
    · omega

theorem findVacant_not_mem (known : NonceSet) (next fuel : Nat)
    (h : next + fuel ∉ known) : findVacant known next fuel ∉ known := by
  induction fuel generalizing next with
  | zero => simpa [findVacant] using h
  | succ fuel ih =>
    simp only [findVacant]
    split
    · have h2 : next + 1 + fuel ∉ known := by
        have heq : next + 1 + fuel = next + (fuel + 1) := by omega
        rw [heq]
        exact h
      exact ih (next + 1) h2
    · assumption

/-- Membership in the `knownTransactions` map agrees, at or above `txCount`,
with membership in the unfiltered union of stored nonces and the mempool. -/
theorem mem_known_iff (stored pending queued : NonceSet) (txCount m : Nat)
    (hm : txCount ≤ m) :
    m ∈ stored.filter (fun nonce => txCount ≤ nonce) ∪ pending ∪ queued ↔
      m ∈ stored ∪ pending ∪ queued := by
  simp only [Finset.mem_union, Finset.mem_filter]
  tauto

theorem calculateNonce_le (stored : NonceSet) (txCount : Nat) (pool : TxPoolView) :
    txCount ≤ (calculateNonce stored txCount pool).nextNonce :=
  findVacant_ge _ _ _

theorem calculateNonce_not_mem_known (stored : NonceSet) (txCount : Nat)
    (pool : TxPoolView) :
    (calculateNonce stored txCount pool).nextNonce ∉
      stored.filter (fun nonce => txCount ≤ nonce) ∪ pool.pending ∪ pool.queued := by
  set known := stored.filter (fun nonce => txCount ≤ nonce) ∪ pool.pending ∪ pool.queued
    with hknown
  have hfold := (Finset.fold_max_le (b := txCount) (s := known) (f := id)
    (c := known.fold max txCount id)).1 (le_refl _)
  have hmax : ∀ k ∈ known, k ≤ known.fold max txCount id := fun k hk => hfold.2 k hk
  have htx : txCount ≤ known.fold max txCount id := hfold.1
  have htop : txCount + (known.fold max txCount id + 1 - txCount) ∉ known := by
    intro hmem
    have := hmax _ hmem
    omega
  exact findVacant_not_mem known txCount _ htop

theorem calculateNonce_not_mem (stored : NonceSet) (txCount : Nat) (pool : TxPoolView) :
    (calculateNonce stored txCount pool).nextNonce ∉
      stored ∪ pool.pending ∪ pool.queued := by
  intro hmem
  exact calculateNonce_not_mem_known stored txCount pool
    ((mem_known_iff stored pool.pending pool.queued txCount _
      (calculateNonce_le stored txCount pool)).2 hmem)

theorem calculateNonce_min (stored : NonceSet) (txCount : Nat) (pool : TxPoolView) :
    ∀ m, txCount ≤ m → m ∉ stored ∪ pool.pending ∪ pool.queued →
      (calculateNonce stored txCount pool).nextNonce ≤ m := by
  intro m hm hnot
  by_contra hlt
  push_neg at hlt
  have hmem := findVacant_mem_of_lt
    (stored.filter (fun nonce => txCount ≤ nonce) ∪ pool.pending ∪ pool.queued)
    txCount _ m hm hlt
  exact hnot ((mem_known_iff stored pool.pending pool.queued txCount m hm).1 hmem)

theorem calculateNonce_acquired (stored : NonceSet) (txCount : Nat) (pool : TxPoolView) :
    (calculateNonce stored txCount pool).acquiredNonces =
      insert (calculateNonce stored txCount pool).nextNonce
        (stored.filter (fun nonce => txCount ≤ nonce)) := rfl

/-- **C1.** For every stored nonce set, transaction count and mempool view,
`calculateNonce` returns as `nextNonce` the least `n ≥ txCount` outside
`stored ∪ pending ∪ queued`, and its returned `acquiredNonces` set is the
stored set with every nonce below `txCount` dropped and `nextNonce` inserted. -/
theorem calculateNonce_least_vacant (stored : NonceSet) (txCount : Nat)
    (pool : TxPoolView) :
    txCount ≤ (calculateNonce stored txCount pool).nextNonce ∧
    (calculateNonce stored txCount pool).nextNonce ∉
      stored ∪ pool.pending ∪ pool.queued ∧
    (∀ m, txCount ≤ m → m ∉ stored ∪ pool.pending ∪ pool.queued →
      (calculateNonce stored txCount pool).nextNonce ≤ m) ∧
    (calculateNonce stored txCount pool).acquiredNonces =
      insert (calculateNonce stored txCount pool).nextNonce
        (stored.filter (fun nonce => txCount ≤ nonce)) :=
  ⟨calculateNonce_le stored txCount pool,
   calculateNonce_not_mem stored txCount pool,
   calculateNonce_min stored txCount pool,
   calculateNonce_acquired stored txCount pool⟩

theorem hexRepAux_fuel : ∀ (fuel fuel' n : Nat), n ≤ fuel → n ≤ fuel' →
    hexRepAux fuel n = hexRepAux fuel' n := by
  intro fuel
  induction fuel with
  | zero =>
    intro fuel' n hf hf'
    have hn : n = 0 := by omega
    subst hn
    cases fuel' <;> rfl
  | succ fuel ih =>
    intro fuel' n hf hf'
    cases n with
    | zero => cases fuel' <;> rfl
    | succ m =>
      cases fuel' with
      | zero => omega
      | succ fuel2 =>
        simp only [hexRepAux]
        have hdiv : (m + 1) / 16 < m + 1 := Nat.div_lt_self (by omega) (by omega)
        rw [ih fuel2 ((m + 1) / 16) (by omega) (by omega)]

theorem hexRep_zero : hexRep 0 = [] := rfl

theorem hexRep_pos (n : Nat) (h : n ≠ 0) :
    hexRep n = hexRep (n / 16) ++ [hexDigitChar (n % 16)] := by
  cases n with
  | zero => exact absurd rfl h
  | succ m =>
    show hexRepAux (m + 1) (m + 1) = hexRepAux ((m + 1) / 16) ((m + 1) / 16) ++ _
    simp only [hexRepAux]
    have hdiv : (m + 1) / 16 < m + 1 := Nat.div_lt_self (by omega) (by omega)
    rw [hexRepAux_fuel m ((m + 1) / 16) ((m + 1) / 16) (by omega) (by omega)]

theorem hexCharVal_hexDigitChar (k : Nat) (h : k < 16) :
    hexCharVal (hexDigitChar k) = some k := by
  interval_cases k <;> decide

theorem parseHexAux_append (acc : Nat) (xs ys : List Char) :
    parseHexAux acc (xs ++ ys) =
      (parseHexAux acc xs).bind (fun a => parseHexAux a ys) := by
  induction xs generalizing acc with
  | nil => simp [parseHexAux]
  | cons c cs ih =>
    simp only [List.cons_append, parseHexAux]
    match hexCharVal c with
    | some v => simp [ih]
    | none => simp

theorem parseHexAux_hexRep (n : Nat) :
    ∀ acc, parseHexAux acc (hexRep n) = some (acc * 16 ^ (hexRep n).length + n) := by
  induction n using Nat.strong_induction_on with
  | _ n ih =>
    intro acc
    by_cases h : n = 0
    · subst h
      simp [hexRep_zero, parseHexAux]
    · rw [hexRep_pos n h, parseHexAux_append]
      have hdiv : n / 16 < n := Nat.div_lt_self (Nat.pos_of_ne_zero h) (by omega)
      rw [ih (n / 16) hdiv acc]
      simp only [Option.some_bind, parseHexAux, hexCharVal_hexDigitChar (n % 16)
        (Nat.mod_lt n (by omega)), List.length_append, List.length_singleton]
      congr 1
      have hmod : 16 * (n / 16) + n % 16 = n := Nat.div_add_mod n 16
      have key : 16 * (acc * 16 ^ (hexRep (n / 16)).length + n / 16) + n % 16 =
          acc * (16 ^ (hexRep (n / 16)).length * 16) + (16 * (n / 16) + n % 16) := by
        ring
      rw [key, hmod, pow_succ]

/-- Round trip: `Number('0x' + n.toString(16)) = n`. -/
theorem jsNumber_hex0xString (n : Nat) :
    jsNumber (.str (hex0xString n)) = some n := by
  by_cases h : n = 0
  · subst h
    decide
  · have hrep : hexRep n ≠ [] := by
      rw [hexRep_pos n h]
      simp
    unfold hex0xString
    simp only [h, if_false]
    unfold jsNumber
    match hcs : hexRep n with
    | [] => exact absurd hcs hrep
    | c :: cs =>
      simp only
      have := parseHexAux_hexRep n 0
      rw [hcs] at this
      simpa using this

/-- **C7.** `mapError` is idempotent: classifying twice equals classifying
once, and an already-classified (`CvcError`) value is returned unchanged, so
one classification layer reaches the caller. -/
theorem mapError_idempotent (e : JsError) :
    mapError (mapError e) = mapError e ∧
      (isCvcError e = true → mapError e = e) := by
  constructor
  · unfold mapError
    by_cases h1 : isCvcError e
    · simp [h1]
    · by_cases h2 : invalidNonceTest (errorString e)
      · have he : (if isCvcError e then e
            else if invalidNonceTest (errorString e) then JsError.invalidNonce e else e) =
              JsError.invalidNonce e := by
          simp [h1, h2]
        rw [he]
        simp [isCvcError]
      · simp [h1, h2]
  · intro h
    unfold mapError
    simp [h]

/-- **C4, counterexample.**  The error `Error: NONCE too low` matches the
spec's case-insensitive `nonce` pattern, yet `mapError` returns it unchanged
(and in particular not as `InvalidNonce`): the code's regex is
case-sensitive, and unmatched errors are not wrapped. -/
theorem mapError_not_case_insensitive :
    invalidNonceTestCI (errorString (.raw "Error" "NONCE too low")) = true ∧
    mapError (.raw "Error" "NONCE too low") = .raw "Error" "NONCE too low" ∧
    mapError (.raw "Error" "NONCE too low") ≠
      .invalidNonce (.raw "Error" "NONCE too low") := by
  refine ⟨by decide, by decide, ?_⟩
  intro h
  rw [show mapError (.raw "Error" "NONCE too low") = .raw "Error" "NONCE too low"
    from by decide] at h
  exact JsError.noConfusion h

/-- **C4, amended.**  For every raw (not already classified) error `e`,
`mapError` returns `InvalidNonce` with cause `e` exactly when the
case-sensitive regex `nonce|replacement\stransaction\sunderpriced|known\stransaction`
matches the string form of `e`; otherwise `e` is returned unchanged, with no
wrapper. -/
theorem mapError_classification (e : JsError) (hraw : isCvcError e = false) :
    (invalidNonceTest (errorString e) = true → mapError e = .invalidNonce e) ∧
    (invalidNonceTest (errorString e) = false → mapError e = e) := by
  constructor
  · intro h
    unfold mapError
    simp [hraw, h]
  · intro h
    unfold mapError
    simp [hraw, h]

/-- Witness for `mapError_classification`: `Error: nonce too low` is
classified as `InvalidNonce`, `Error: boom` passes through. -/
theorem mapError_classification_witness :
    mapError (.raw "Error" "nonce too low") =
      .invalidNonce (.raw "Error" "nonce too low") ∧
    mapError (.raw "Error" "boom") = .raw "Error" "boom" :=
  ⟨(mapError_classification (.raw "Error" "nonce too low") (by decide)).1 (by decide),
   (mapError_classification (.raw "Error" "boom") (by decide)).2 (by decide)⟩

/-- **C9.**  Against the claim (and the store's own unit test, which expects
a plain non-blocking `get`), `InMemory.get` participates in locking: after
`put('abc', 42)` the key is unlocked, and `get('abc')` returns the stored
value but flips the key's lock state to locked; a second `get` on the
now-locked key fails with the lock-acquisition timeout error instead of
returning the value. -/
theorem storeGet_locks_and_times_out :
    (storePut (emptyKV Nat) "abc" 42).locked "abc" = false ∧
    (∃ st2 : KVState Nat,
      storeGet (storePut (emptyKV Nat) "abc" 42) "abc" = .ok (some 42, st2) ∧
      st2.locked "abc" = true ∧
      storeGet st2 "abc" = .error (.raw "Error"
        "Cannot obtain lock for abc after 45000ms of 450 attempts")) := by
  constructor
  · simp [storePut, emptyKV]
  · refine ⟨{ storePut (emptyKV Nat) "abc" 42 with
              locked := fun k => if k = "abc" then true
                else (storePut (emptyKV Nat) "abc" 42).locked k }, ?_, ?_, ?_⟩
    · simp [storeGet, storePut, emptyKV]
    · simp
    · simp [storeGet]

theorem releaseAccountNonce_num (s : NonceSet) (n : Nat) :
    releaseAccountNonce (some s) (.num n) = some (s.erase n) := by
  simp [releaseAccountNonce, jsNumber]

theorem releaseAccountNonce_hex (s : NonceSet) (n : Nat) :
    releaseAccountNonce (some s) (.str (hex0xString n)) = some (s.erase n) := by
  simp [releaseAccountNonce, jsNumber_hex0xString]

theorem getNonceForAccount_some (env : NodeEnv) (s : NonceSet) :
    (getNonceForAccount env (some s)).2 =
      some (insert (getNonceForAccount env (some s)).1
        (s.filter (fun nonce => env.txCount ≤ nonce))) := rfl

theorem getNonceForAccount_not_mem_filter (env : NodeEnv) (s : NonceSet) :
    (getNonceForAccount env (some s)).1 ∉
      s.filter (fun nonce => env.txCount ≤ nonce) := by
  intro hmem
  have hs : (getNonceForAccount env (some s)).1 ∈ s := (Finset.mem_filter.1 hmem).1
  have := calculateNonce_not_mem s env.txCount env.pool
  simp only [Finset.mem_union, not_or] at this
  exact this.1.1 hs

/-- **C10, counterexample.**  Acquire-then-release does not restore the
stored nonce set in general: with stored set `{0}` and confirmed count 5,
the acquire drops the mined nonce 0 (`_.pickBy(nonces, nonce >= txCount)`)
and hands out 5, and releasing `'0x5'` then leaves `∅`, not `{0}`. -/
theorem releaseAccountNonce_drop_below_txCount :
    (getNonceForAccount
      { txCount := 5, pool := ⟨∅, ∅⟩, contractAddress := "0xC",
        encodeCall := fun _ _ => some "0xdata" } (some {0})).1 = 5 ∧
    releaseAccountNonce
      (getNonceForAccount
        { txCount := 5, pool := ⟨∅, ∅⟩, contractAddress := "0xC",
          encodeCall := fun _ _ => some "0xdata" } (some {0})).2
      (.str (hex0xString
        (getNonceForAccount
          { txCount := 5, pool := ⟨∅, ∅⟩, contractAddress := "0xC",
            encodeCall := fun _ _ => some "0xdata" } (some {0})).1)) =
      some (∅ : NonceSet) ∧
    some (∅ : NonceSet) ≠ some ({0} : NonceSet) := by
  refine ⟨by decide, by decide, ?_⟩
  simp only [ne_eq, Option.some.injEq]
  intro h
  have : (0 : Nat) ∈ (∅ : NonceSet) := h ▸ Finset.mem_insert_self 0 ∅
  simp at this

/-- **C10, amended.**  `releaseAccountNonce` removes exactly the given nonce
whether it arrives as a number or as the `0x`-hex string carried on a built
raw transaction; on an address with no stored state it is a no-op; an acquire
followed by a release through the transaction's hex nonce restores the stored
set with every nonce strictly below the confirmed count dropped (the acquire
drops those as mined) — hence the original set exactly when no stored nonce
was below the confirmed count. -/
theorem releaseAccountNonce_round_trip (s : NonceSet) (n : Nat) (env : NodeEnv) :
    releaseAccountNonce (some s) (.num n) = some (s.erase n) ∧
    releaseAccountNonce (some s) (.str (hex0xString n)) = some (s.erase n) ∧
    (∀ v, releaseAccountNonce none v = none) ∧
    releaseAccountNonce (getNonceForAccount env (some s)).2
      (.str (hex0xString (getNonceForAccount env (some s)).1)) =
      some (s.filter (fun nonce => env.txCount ≤ nonce)) ∧
    ((∀ m ∈ s, env.txCount ≤ m) →
      releaseAccountNonce (getNonceForAccount env (some s)).2
        (.str (hex0xString (getNonceForAccount env (some s)).1)) = some s) := by
  have hround : releaseAccountNonce (getNonceForAccount env (some s)).2
      (.str (hex0xString (getNonceForAccount env (some s)).1)) =
      some (s.filter (fun nonce => env.txCount ≤ nonce)) := by
    rw [getNonceForAccount_some, releaseAccountNonce_hex,
      Finset.erase_insert (getNonceForAccount_not_mem_filter env s)]
  refine ⟨releaseAccountNonce_num s n, releaseAccountNonce_hex s n,
    fun v => rfl, hround, fun hall => ?_⟩
  rw [hround, Finset.filter_true_of_mem hall]

/-- Witness for `releaseAccountNonce_round_trip`: for `s = {5}` against a
node with `txCount = 5`, the acquire hands out 6 and releasing `'0x6'`
restores `{5}` (no stored nonce is below the confirmed count). -/
theorem releaseAccountNonce_round_trip_witness :
    releaseAccountNonce
      (getNonceForAccount
        { txCount := 5, pool := ⟨∅, ∅⟩, contractAddress := "0xC",
          encodeCall := fun _ _ => some "0xdata" } (some {5})).2
      (.str (hex0xString
        (getNonceForAccount
          { txCount := 5, pool := ⟨∅, ∅⟩, contractAddress := "0xC",
            encodeCall := fun _ _ => some "0xdata" } (some {5})).1)) =
      some ({5} : NonceSet) :=
  (releaseAccountNonce_round_trip {5} 0
    { txCount := 5, pool := ⟨∅, ∅⟩, contractAddress := "0xC",
      encodeCall := fun _ _ => some "0xdata" }).2.2.2.2 (by decide)

theorem releaseUnprocessed_of_pos (error : JsError) (rest : List RawTransaction) :
    ∀ (idx : Nat) (stored : Option NonceSet), 0 < idx →
      releaseUnprocessed error idx stored rest =
        rest.foldl releaseRawTxNonce stored := by
  induction rest with
  | nil => intro idx stored _; rfl
  | cons r rs ih =>
    intro idx stored hidx
    simp only [releaseUnprocessed, List.foldl_cons]
    have hcond : (0 < idx || !isInvalidNonceError error) = true := by
      simp [hidx]
    rw [hcond]
    simp only [if_true]
    exact ih (idx + 1) _ (by omega)

theorem releaseUnprocessed_zero_cons (error : JsError) (r0 : RawTransaction)
    (rest : List RawTransaction) (stored : Option NonceSet) :
    releaseUnprocessed error 0 stored (r0 :: rest) =
      releaseUnprocessed error 1
        (if isInvalidNonceError error then stored else releaseRawTxNonce stored r0)
        rest := by
  simp only [releaseUnprocessed]
  by_cases hinv : isInvalidNonceError error = true <;> simp [hinv]

theorem releaseRawTxNonce_hex (s : NonceSet) (rawTx : RawTransaction) (n : Nat)
    (h : rawTx.nonce = some (hex0xString n)) :
    releaseRawTxNonce (some s) rawTx = some (s.erase n) := by
  simp [releaseRawTxNonce, h, releaseAccountNonce_hex]

theorem foldl_releaseRawTxNonce_hex (ns : List Nat) :
    ∀ (rawTxs : List RawTransaction) (s : NonceSet),
      rawTxs.map RawTransaction.nonce =
        ns.map (fun n => some (hex0xString n)) →
      rawTxs.foldl releaseRawTxNonce (some s) = some (ns.foldl Finset.erase s) := by
  induction ns with
  | nil =>
    intro rawTxs s h
    simp only [List.map_nil, List.map_eq_nil_iff] at h
    subst h
    rfl
  | cons n ns ih =>
    intro rawTxs s h
    cases rawTxs with
    | nil => simp at h
    | cons r rs =>
      simp only [List.map_cons, List.cons.injEq] at h
      rw [List.foldl_cons, List.foldl_cons,
        releaseRawTxNonce_hex s r n h.1, ih rs _ h.2]

/-- **C2.** On a chain failure with a non-empty unsent remainder whose raw
transactions carry hex-assigned nonces `n0 :: ns`, the chain error handler
releases all nonces of the unsent transactions after the failing (first
unprocessed) one unconditionally, releases the failing transaction's own
nonce `n0` exactly when the error is not `InvalidNonce`, and surfaces
`FailedTxChain` carrying the unsent remainder with the original cause. -/
theorem chainHandleSendError_release_policy (s : NonceSet)
    (rawTxs : List RawTransaction) (descs : List TxParams) (error : JsError)
    (n0 : Nat) (ns : List Nat)
    (h : rawTxs.map RawTransaction.nonce =
      (n0 :: ns).map (fun n => some (hex0xString n))) :
    chainHandleSendError (some s) rawTxs descs error =
      (some ((if isInvalidNonceError error then ns else n0 :: ns).foldl
          Finset.erase s),
       .failedTxChain descs error) := by
  cases rawTxs with
  | nil => simp at h
  | cons r0 rest =>
    simp only [List.map_cons, List.cons.injEq] at h
    unfold chainHandleSendError
    rw [releaseUnprocessed_zero_cons, releaseUnprocessed_of_pos error rest 1 _ (by omega)]
    by_cases hinv : isInvalidNonceError error = true
    · simp only [hinv, if_true, foldl_releaseRawTxNonce_hex ns rest s h.2]
    · have hinv2 : isInvalidNonceError error = false := eq_false_of_ne_true hinv
      simp only [hinv2, Bool.false_eq_true, if_false,
        releaseRawTxNonce_hex s r0 n0 h.1, List.foldl_cons,
        foldl_releaseRawTxNonce_hex ns rest (s.erase n0) h.2]

/-- Witness for `chainHandleSendError_release_policy`: with stored set
`{5, 6, 7}`, unsent nonces `[5, 6]` and a generic error, both 5 and 6 are
released; surfaced error is `FailedTxChain`. -/
theorem chainHandleSendError_release_policy_witness :
    chainHandleSendError (some {5, 6, 7})
      [{ nonce := some "0x5", fromAddress := "0xA", toAddress := "0xC",
         value := "0x0", gas := "0x1", gasPrice := "0x1", chainId := "0x0" },
       { nonce := some "0x6", fromAddress := "0xA", toAddress := "0xC",
         value := "0x0", gas := "0x1", gasPrice := "0x1", chainId := "0x0" }]
      [] (.raw "Error" "boom") =
      (some ({7} : NonceSet), .failedTxChain [] (.raw "Error" "boom")) := by
  have h := chainHandleSendError_release_policy {5, 6, 7}
    [{ nonce := some "0x5", fromAddress := "0xA", toAddress := "0xC",
       value := "0x0", gas := "0x1", gasPrice := "0x1", chainId := "0x0" },
     { nonce := some "0x6", fromAddress := "0xA", toAddress := "0xC",
       value := "0x0", gas := "0x1", gasPrice := "0x1", chainId := "0x0" }]
    [] (.raw "Error" "boom") 5 [6] (by decide)
  rw [h]
  decide

theorem hex0xString_ne_empty (n : Nat) : hex0xString n ≠ "" := by
  unfold hex0xString
  split <;> simp [String.ext_iff]

/-- In manager-assigned mode (`assignedNonce = true`, no client nonce) with a
successful ABI encoding, `createTx` acquires the next nonce, attaches its hex
form and persists the updated set. -/
theorem createTx_assigned (env : NodeEnv) (st : Option NonceSet)
    (fromAddress c m : String) (args : List String) (txOptions : TxOptions)
    (d : String) (hnonce : txOptions.nonce = none)
    (hencode : env.encodeCall m args = some d) :
    createTx env st fromAddress c m args true txOptions =
      { result := .ok
          { nonce := some (hex0xString (getNonceForAccount env st).1)
            fromAddress := fromAddress
            toAddress := env.contractAddress
            value := "0x0"
            data := some d
            gas := hex0xString (txOptions.gas.getD 300000)
            gasPrice := hex0xString (txOptions.gasPrice.getD 1000000000)
            chainId := hex0xString (txOptions.chainId.getD 0) }
        stored := (getNonceForAccount env st).2
        ops := [.acquire (getNonceForAccount env st).1] } := by
  unfold createTx
  simp [hnonce, jsTruthyNat, hencode, withOptionalNonce]

/-- **C3.** A single send in manager-assigned mode that fails in the
sign/submit step releases the acquired nonce back to the store before
propagating the error exactly when the classified error is not
`InvalidNonce`; on an `InvalidNonce` error the acquired nonce stays stored. -/
theorem send_release_policy (env : NodeEnv) (s : NonceSet)
    (fromAddress contractName method : String) (args : List String)
    (txOptions : TxOptions) (e : JsError) (d : String)
    (hnonce : txOptions.nonce = none)
    (hencode : env.encodeCall method args = some d) :
    (isInvalidNonceError e = false →
      send env (some s) fromAddress contractName method args true txOptions
        (.error e) =
        (.error e, some (s.filter (fun nonce => env.txCount ≤ nonce)))) ∧
    (isInvalidNonceError e = true →
      send env (some s) fromAddress contractName method args true txOptions
        (.error e) =
        (.error e, some (insert (getNonceForAccount env (some s)).1
          (s.filter (fun nonce => env.txCount ≤ nonce))))) := by
  unfold send
  rw [createTx_assigned env (some s) fromAddress contractName method args
    txOptions d hnonce hencode]
  simp only [handleSendError]
  have hne : (hex0xString (getNonceForAccount env (some s)).1 != "") = true := by
    simp [bne_iff_ne, hex0xString_ne_empty]
  constructor
  · intro hinv
    simp only [hinv, hne, Bool.not_false, Bool.and_self, if_true,
      getNonceForAccount_some, releaseAccountNonce_hex,
      Finset.erase_insert (getNonceForAccount_not_mem_filter env s)]
  · intro hinv
    simp only [hinv, Bool.not_true, Bool.and_false, Bool.false_eq_true, if_false,
      getNonceForAccount_some]

/-- Witness for `send_release_policy`: with stored `{5}` against a fresh
account, a generic failure releases the acquired nonce 0 (store back to
`{5}`) while an `InvalidNonce` failure keeps it (`{0, 5}`). -/
theorem send_release_policy_witness :
    send envW (some {5}) "0xA" "C" "m" [] true {} (.error (.raw "Error" "boom")) =
      (.error (.raw "Error" "boom"), some ({5} : NonceSet)) ∧
    send envW (some {5}) "0xA" "C" "m" [] true {}
        (.error (.invalidNonce (.raw "Error" "nonce too low"))) =
      (.error (.invalidNonce (.raw "Error" "nonce too low")),
        some ({0, 5} : NonceSet)) := by
  constructor
  · have h := (send_release_policy envW {5} "0xA" "C" "m" [] {}
      (.raw "Error" "boom") "0xdata" rfl rfl).1 (by decide)
    rw [h]
    decide
  · have h := (send_release_policy envW {5} "0xA" "C" "m" [] {}
      (.invalidNonce (.raw "Error" "nonce too low")) "0xdata" rfl rfl).2 (by decide)
    rw [h]
    decide

/-- Against a fixed node state, a second acquire always returns a strictly
larger nonce than the one just acquired: everything below the first result is
known, and the first result itself has just been stored. -/
theorem getNonceForAccount_mono (env : NodeEnv) (st : Option NonceSet) :
    (getNonceForAccount env st).1 <
      (getNonceForAccount env (getNonceForAccount env st).2).1 := by
  set S := st.getD ∅ with hS
  set F := S.filter (fun nonce => env.txCount ≤ nonce) with hF
  set n1 := (getNonceForAccount env st).1 with hn1
  have hsnd : (getNonceForAccount env st).2 = some (insert n1 F) := rfl
  set n2 := (getNonceForAccount env (getNonceForAccount env st).2).1 with hn2
  have hn2eq : n2 = (calculateNonce (insert n1 F) env.txCount env.pool).nextNonce := by
    rw [hn2, hsnd]
    rfl
  have h2le : env.txCount ≤ n2 := by
    rw [hn2eq]
    exact calculateNonce_le _ _ _
  have h2notmem : n2 ∉ insert n1 F ∪ env.pool.pending ∪ env.pool.queued := by
    rw [hn2eq]
    exact calculateNonce_not_mem _ _ _
  have hne : n2 ≠ n1 := by
    intro h
    exact h2notmem (Finset.mem_union_left _ (Finset.mem_union_left _
      (h ▸ Finset.mem_insert_self n1 F)))
  by_contra hcon
  push_neg at hcon
  have hlt2 : n2 < n1 := lt_of_le_of_ne hcon hne
  have hn1calc : n1 = (calculateNonce S env.txCount env.pool).nextNonce := rfl
  have hmem : n2 ∈ S ∪ env.pool.pending ∪ env.pool.queued := by
    by_contra hnm
    have := calculateNonce_min S env.txCount env.pool n2 h2le hnm
    rw [← hn1calc] at this
    omega
  apply h2notmem
  simp only [Finset.mem_union, Finset.mem_insert, hF, Finset.mem_filter] at hmem ⊢
  tauto

theorem acquireSeq_succ (env : NodeEnv) (st : Option NonceSet) (k : Nat) :
    acquireSeq env st (k + 1) =
      ((getNonceForAccount env st).1 ::
        (acquireSeq env (getNonceForAccount env st).2 k).1,
       (acquireSeq env (getNonceForAccount env st).2 k).2) := rfl

theorem acquireSeq_chain (env : NodeEnv) :
    ∀ (k : Nat) (st : Option NonceSet),
      List.Chain' (· < ·) (acquireSeq env st k).1 := by
  intro k
  induction k with
  | zero =>
    intro st
    simp [acquireSeq]
  | succ k ih =>
    intro st
    rw [acquireSeq_succ]
    cases k with
    | zero => simp [acquireSeq]
    | succ k2 =>
      rw [acquireSeq_succ]
      refine List.chain'_cons.2 ⟨getNonceForAccount_mono env st, ?_⟩
      have h := ih (getNonceForAccount env st).2
      rw [acquireSeq_succ] at h
      exact h

theorem createTx_assigned_encode_fail (env : NodeEnv) (st : Option NonceSet)
    (fromAddress c m : String) (args : List String) (txOptions : TxOptions)
    (hnonce : txOptions.nonce = none) (henc : env.encodeCall m args = none) :
    (createTx env st fromAddress c m args true txOptions).result =
      .error (mapError (.raw "Error"
        "Invalid number of arguments to Solidity function")) := by
  unfold createTx
  simp [hnonce, jsTruthyNat, henc]

/-- Each raw transaction of a successfully built assigned-nonce chain carries
the hex form of the corresponding entry of the acquire sequence, and the
sender address of every entry. -/
theorem createTxChain_ok_nonces (env : NodeEnv) (fromAddress : String)
    (txOptions : TxOptions) (hnonce : txOptions.nonce = none) :
    ∀ (ts : List TxParams) (st : Option NonceSet)
      (txs : List RawTransaction) (st2 : Option NonceSet),
      createTxChain env fromAddress true txOptions ts st = (.ok txs, st2) →
      txs.map RawTransaction.nonce =
        ((acquireSeq env st ts.length).1).map (fun n => some (hex0xString n)) ∧
      ∀ t ∈ txs, t.fromAddress = fromAddress := by
  intro ts
  induction ts with
  | nil =>
    intro st txs st2 h
    simp only [createTxChain, Prod.mk.injEq, Except.ok.injEq] at h
    rw [← h.1]
    simp [acquireSeq]
  | cons t ts ih =>
    intro st txs st2 h
    simp only [createTxChain] at h
    cases henc : env.encodeCall t.method t.args with
    | none =>
      rw [createTx_assigned_encode_fail env st fromAddress t.contract t.method
        t.args txOptions hnonce henc] at h
      simp at h
    | some d =>
      rw [createTx_assigned env st fromAddress t.contract t.method t.args
        txOptions d hnonce henc] at h
      simp only at h
      cases hchain : createTxChain env fromAddress true txOptions ts
          (getNonceForAccount env st).2 with
      | mk res st3 =>
        rw [hchain] at h
        cases res with
        | error e => simp at h
        | ok rest =>
          simp only [Prod.mk.injEq, Except.ok.injEq] at h
          obtain ⟨hmap, hfrom⟩ := ih (getNonceForAccount env st).2 rest st3 hchain
          rw [← h.1]
          constructor
          · simp only [List.map_cons, List.length_cons, acquireSeq_succ, hmap]
          · intro x hx
            rcases List.mem_cons.1 hx with hx | hx
            · rw [hx]
            · exact hfrom x hx

/-- **C5, counterexample.**  Starting from the stored set `{0, 2}` on a fresh
account with empty mempool, a two-transaction assigned-nonce chain receives
the gap-filling nonces `0x1` and then `0x3` — values 1 and 3, which do not
form a contiguous run `b, b + 1`. -/
theorem createTxChain_gap_not_contiguous :
    (match (createTxChain envW "0xA" true {}
        [⟨"C", "m", []⟩, ⟨"C", "m", []⟩] (some {0, 2})).1 with
      | .ok txs => txs.map RawTransaction.nonce
      | .error _ => []) = [some "0x1", some "0x3"] ∧
    jsNumber (.str "0x1") = some 1 ∧
    jsNumber (.str "0x3") = some 3 ∧
    ∀ b : Nat, ¬([1, 3] = [b, b + 1]) := by
  refine ⟨by decide, by decide, by decide, ?_⟩
  intro b hb
  simp only [List.cons.injEq, and_true] at hb
  omega

/-- **C5, amended.**  A successfully built assigned-nonce chain (no client
nonce override) gives all raw transactions the shared `from` address and a
strictly increasing — though, with pre-existing gaps, not necessarily
contiguous — sequence of hex-encoded nonces. -/
theorem createTxChain_assigned_increasing (env : NodeEnv) (fromAddress : String)
    (txOptions : TxOptions) (ts : List TxParams) (st : Option NonceSet)
    (txs : List RawTransaction) (st2 : Option NonceSet)
    (hnonce : txOptions.nonce = none)
    (h : createTxChain env fromAddress true txOptions ts st = (.ok txs, st2)) :
    (∀ t ∈ txs, t.fromAddress = fromAddress) ∧
    ∃ ns : List Nat,
      txs.map RawTransaction.nonce = ns.map (fun n => some (hex0xString n)) ∧
      List.Chain' (· < ·) ns := by
  obtain ⟨hmap, hfrom⟩ :=
    createTxChain_ok_nonces env fromAddress txOptions hnonce ts st txs st2 h
  exact ⟨hfrom, (acquireSeq env st ts.length).1, hmap,
    acquireSeq_chain env ts.length st⟩

/-- Witness for `createTxChain_assigned_increasing`: a concrete two-element
chain from the empty store receives nonces `0x0`, `0x1`, shares `from` and is
strictly increasing. -/
theorem createTxChain_assigned_increasing_witness :
    ∃ (txs : List RawTransaction) (st2 : Option NonceSet),
      createTxChain envW "0xA" true {} [⟨"C", "m", []⟩, ⟨"C", "m", []⟩]
        (some ∅) = (.ok txs, st2) ∧
      ((∀ t ∈ txs, t.fromAddress = "0xA") ∧
        ∃ ns : List Nat,
          txs.map RawTransaction.nonce = ns.map (fun n => some (hex0xString n)) ∧
          List.Chain' (· < ·) ns) := by
  have h1 : (createTxChain envW "0xA" true {} [⟨"C", "m", []⟩, ⟨"C", "m", []⟩]
      (some ∅)).1 =
      .ok
        [{ nonce := some "0x0", fromAddress := "0xA", toAddress := "0xC",
           value := "0x0", data := some "0xdata", gas := "0x493e0",
           gasPrice := "0x3b9aca00", chainId := "0x0" },
         { nonce := some "0x1", fromAddress := "0xA", toAddress := "0xC",
           value := "0x0", data := some "0xdata", gas := "0x493e0",
           gasPrice := "0x3b9aca00", chainId := "0x0" }] := by decide
  have h : createTxChain envW "0xA" true {} [⟨"C", "m", []⟩, ⟨"C", "m", []⟩]
      (some ∅) =
      (.ok
        [{ nonce := some "0x0", fromAddress := "0xA", toAddress := "0xC",
           value := "0x0", data := some "0xdata", gas := "0x493e0",
           gasPrice := "0x3b9aca00", chainId := "0x0" },
         { nonce := some "0x1", fromAddress := "0xA", toAddress := "0xC",
           value := "0x0", data := some "0xdata", gas := "0x493e0",
           gasPrice := "0x3b9aca00", chainId := "0x0" }],
       (createTxChain envW "0xA" true {} [⟨"C", "m", []⟩, ⟨"C", "m", []⟩]
         (some ∅)).2) := by
    rw [← h1]
  exact ⟨_, _, h,
    createTxChain_assigned_increasing envW "0xA" {} _ _ _ _ rfl h⟩

/-- **C6, counterexample.**  A caller-supplied nonce override of `0` is falsy
in the `if (updatedTxOptions.nonce)` check, so with `assignedNonce` set the
nonce manager is consulted after all: an acquire happens and the stored set
changes from `∅` to `{0}`. -/
theorem createTx_zero_override_uses_manager :
    (createTx envW (some ∅) "0xA" "C" "m" [] true { nonce := some 0 }).ops =
      [.acquire 0] ∧
    (createTx envW (some ∅) "0xA" "C" "m" [] true { nonce := some 0 }).stored =
      some ({0} : NonceSet) ∧
    some ({0} : NonceSet) ≠ some (∅ : NonceSet) := by
  refine ⟨by decide, by decide, ?_⟩
  simp only [ne_eq, Option.some.injEq]
  intro h
  have : (0 : Nat) ∈ (∅ : NonceSet) := h ▸ Finset.mem_insert_self 0 ∅
  simp at this

/-- **C6, amended.**  A truthy (nonzero) caller-supplied nonce override
bypasses the nonce manager entirely, in `createTx` and
`createPlatformCoinTransferTx` alike, on the success and the error path: no
acquire or release is recorded and the stored nonce state is unchanged. -/
theorem createTx_truthy_override_bypasses (env : NodeEnv)
    (stored : Option NonceSet)
    (fromAddress contractName method toAddress value : String)
    (args : List String) (assignedNonce : Bool) (txOptions : TxOptions)
    (k : Nat) (hk : txOptions.nonce = some k) (hk0 : k ≠ 0) :
    ((createTx env stored fromAddress contractName method args assignedNonce
        txOptions).stored = stored ∧
     (createTx env stored fromAddress contractName method args assignedNonce
        txOptions).ops = []) ∧
    ((createPlatformCoinTransferTx env stored fromAddress toAddress value
        assignedNonce txOptions).stored = stored ∧
     (createPlatformCoinTransferTx env stored fromAddress toAddress value
        assignedNonce txOptions).ops = []) := by
  have ht : jsTruthyNat txOptions.nonce = true := by
    simp [jsTruthyNat, hk, hk0]
  unfold createTx createPlatformCoinTransferTx
  simp only [ht, if_true]
  cases env.encodeCall method args <;> simp

/-- Witness for `createTx_truthy_override_bypasses`: override nonce 5 with
stored state `{7}` leaves the store at `{7}` and records no manager call. -/
theorem createTx_truthy_override_bypasses_witness :
    (createTx envW (some {7}) "0xA" "C" "m" [] true { nonce := some 5 }).stored =
      some ({7} : NonceSet) ∧
    (createTx envW (some {7}) "0xA" "C" "m" [] true { nonce := some 5 }).ops =
      [] ∧
    (createPlatformCoinTransferTx envW (some {7}) "0xA" "0xB" "0x64" true
      { nonce := some 5 }).stored = some ({7} : NonceSet) ∧
    (createPlatformCoinTransferTx envW (some {7}) "0xA" "0xB" "0x64" true
      { nonce := some 5 }).ops = [] := by
  have h := createTx_truthy_override_bypasses envW (some {7}) "0xA" "C" "m"
    "0xB" "0x64" [] true { nonce := some 5 } 5 rfl (by decide)
  exact ⟨h.1.1, h.1.2, h.2.1, h.2.2⟩

/-- **C8.** `inspectTxPool` resolves an error mentioning
`Method txpool_inspect not supported.` to empty pending/queued views (so
allocation proceeds from the confirmed count and local reservations alone),
propagates every other error through `mapError`, and indexes a successful
reply by the address with empty defaults. -/
theorem inspectTxPool_spec (address : String) (e : JsError) (reply : TxPoolReply) :
    (strIncludes (errMessage e) "Method txpool_inspect not supported." = true →
      inspectTxPool address (.error e) = .ok ⟨∅, ∅⟩) ∧
    (strIncludes (errMessage e) "Method txpool_inspect not supported." = false →
      inspectTxPool address (.error e) = .error (mapError e)) ∧
    inspectTxPool address (.ok reply) =
      .ok ⟨(reply.pending address).getD ∅, (reply.queued address).getD ∅⟩ := by
  refine ⟨fun h => ?_, fun h => ?_, rfl⟩
  · simp [inspectTxPool, h]
  · simp [inspectTxPool, h]

/-- Witness for `inspectTxPool_spec`: the exact unsupported-method reply
yields empty pools; a `boom` error is propagated. -/
theorem inspectTxPool_spec_witness :
    inspectTxPool "0xA"
      (.error (.raw "Error" "Method txpool_inspect not supported.")) =
      .ok ⟨∅, ∅⟩ ∧
    inspectTxPool "0xA" (.error (.raw "Error" "boom")) =
      .error (.raw "Error" "boom") := by
  constructor
  · exact (inspectTxPool_spec "0xA"
      (.raw "Error" "Method txpool_inspect not supported.")
      ⟨fun _ => none, fun _ => none⟩).1 (by decide)
  · have h := (inspectTxPool_spec "0xA" (.raw "Error" "boom")
      ⟨fun _ => none, fun _ => none⟩).2.1 (by decide)
    rw [h]
    decide

end MarketplaceTx
